import Mathlib

/-!
Verification development for the tuistory Session core (src/src/session.ts).

The TypeScript source is shallowly embedded: pure functions (the key codec,
the screen projector, the pattern matcher) become Lean functions on
`String`/`List`; the stateful Session becomes explicit state passing on a
`SessionSt` record; the event-loop timing of the idle tracker becomes a
discrete-event model (`waitIdleResult`) over the list of PTY chunk arrival
times.  JS strings are modelled as Lean `String` (ASCII-faithful), JS
numbers as `Nat`.
-/

set_option maxRecDepth 10000

namespace Tuistory

/-- Letter keys (session.ts LETTERS). -/
def LETTERS : List String :=
  ["a", "b", "c", "d", "e", "f", "g", "h", "i", "j",
   "k", "l", "m", "n", "o", "p", "q", "r", "s", "t",
   "u", "v", "w", "x", "y", "z"]

/-- Digit keys (session.ts DIGITS). -/
def DIGITS : List String := ["0", "1", "2", "3", "4", "5", "6", "7", "8", "9"]

/-- Named special keys (session.ts SPECIAL_KEYS). -/
def SPECIAL_KEYS : List String :=
  ["enter", "return", "esc", "escape", "tab", "space", "backspace", "delete",
   "insert", "up", "down", "left", "right", "home", "end", "pageup", "pagedown",
   "clear", "linefeed", "f1", "f2", "f3", "f4", "f5", "f6", "f7", "f8", "f9",
   "f10", "f11", "f12"]

/-- Modifier keys (session.ts MODIFIERS). -/
def MODIFIERS : List String := ["ctrl", "alt", "shift", "meta"]

/-- Punctuation keys (session.ts PUNCTUATION).  The apostrophe, backtick and
brace characters are written with hexadecimal escapes. -/
def PUNCTUATION : List String :=
  ["-", "=", "[", "]", "\\", ";", "\x27", ",", ".", "/", "\x60",
   "!", "@", "#", "$", "%", "^", "&", "*", "(", ")", "_", "+",
   "\x7b", "\x7d", "|", ":", "\"", "<", ">", "?", "~"]

/-- The set of valid key names (session.ts VALID_KEYS, a JS Set built from the
five arrays; modelled as the concatenated list, membership coincides). -/
def VALID_KEYS : List String :=
  LETTERS ++ DIGITS ++ SPECIAL_KEYS ++ MODIFIERS ++ PUNCTUATION

/-- ASCII lower-casing of a string (JS String.prototype.toLowerCase on the
ASCII key names used here). -/
def lowerStr (s : String) : String := String.mk (s.data.map Char.toLower)

/-- ASCII upper-casing of a string (JS String.prototype.toUpperCase). -/
def upperStr (s : String) : String := String.mk (s.data.map Char.toUpper)

/-- Key validation (session.ts isValidKey): membership of the lower-cased
name in VALID_KEYS. -/
def isValidKey (key : String) : Bool := VALID_KEYS.contains (lowerStr key)

/-- Keycodes of the CSI-u encoding for special keys with modifiers (session.ts
CSI_U_KEYCODES). -/
def CSI_U_KEYCODES : List (String × Nat) :=
  [("enter", 13), ("return", 13), ("tab", 9), ("backspace", 127),
   ("escape", 27), ("esc", 27)]

/-- Fixed escape sequences for named keys (session.ts KEY_CODES). -/
def KEY_CODES : List (String × String) :=
  [("enter", "\r"), ("return", "\r"), ("esc", "\x1b"), ("escape", "\x1b"),
   ("tab", "\t"), ("space", " "), ("backspace", "\x7f"),
   ("delete", "\x1b[3~"), ("insert", "\x1b[2~"),
   ("up", "\x1b[A"), ("down", "\x1b[B"), ("left", "\x1b[D"), ("right", "\x1b[C"),
   ("home", "\x1b[H"), ("end", "\x1b[F"),
   ("pageup", "\x1b[5~"), ("pagedown", "\x1b[6~"),
   ("clear", "\x1b[E"), ("linefeed", "\n"),
   ("f1", "\x1bOP"), ("f2", "\x1bOQ"), ("f3", "\x1bOR"), ("f4", "\x1bOS"),
   ("f5", "\x1b[15~"), ("f6", "\x1b[17~"), ("f7", "\x1b[18~"), ("f8", "\x1b[19~"),
   ("f9", "\x1b[20~"), ("f10", "\x1b[21~"), ("f11", "\x1b[23~"), ("f12", "\x1b[24~")]

/-- Control bytes for ctrl+letter chords (session.ts CTRL_CODES). -/
def CTRL_CODES : List (String × String) :=
  [("a", "\x01"), ("b", "\x02"), ("c", "\x03"), ("d", "\x04"), ("e", "\x05"),
   ("f", "\x06"), ("g", "\x07"), ("h", "\x08"), ("i", "\x09"), ("j", "\x0a"),
   ("k", "\x0b"), ("l", "\x0c"), ("m", "\x0d"), ("n", "\x0e"), ("o", "\x0f"),
   ("p", "\x10"), ("q", "\x11"), ("r", "\x12"), ("s", "\x13"), ("t", "\x14"),
   ("u", "\x15"), ("v", "\x16"), ("w", "\x17"), ("x", "\x18"), ("y", "\x19"),
   ("z", "\x1a")]

/-- Encoding of one main key under the modifier flags, translated branch by
branch from the loop body of Session.getKeyCode (session.ts lines 274-305):
ctrl + single char uses CTRL_CODES (falling back to the raw char);
else modifiers + CSI-u-capable key emits the CSI-u sequence;
else a KEY_CODES entry (with ESC prepended when alt is held);
else a single char (upper-cased under shift, ESC-prefixed under alt);
else the raw name. -/
def encodeKey (hasCtrl hasAlt hasShift : Bool) (key : String) : String :=
  if hasCtrl && (key.length == 1) then
    match CTRL_CODES.lookup (lowerStr key) with
    | some code => code
    | none => key
  else
    match (if hasCtrl || hasAlt || hasShift then CSI_U_KEYCODES.lookup key else none) with
    | some keycode =>
        "\x1b[" ++ Nat.repr keycode ++ ";"
          ++ Nat.repr (1 + (if hasShift then 1 else 0) + (if hasAlt then 2 else 0)
              + (if hasCtrl then 4 else 0))
          ++ "u"
    | none =>
        match KEY_CODES.lookup key with
        | some seq => if hasAlt then "\x1b" ++ seq else seq
        | none =>
            if key.length == 1 then
              (if hasAlt then "\x1b" else "")
                ++ (if hasShift then upperStr key else key)
            else key

/-- The non-modifier keys of a chord (session.ts getKeyCode: the mainKeys
filter). -/
def mainKeysOf (keys : List String) : List String :=
  keys.filter (fun k => k != "ctrl" && k != "alt" && k != "shift" && k != "meta")

/-- The chord codec (Session.getKeyCode, session.ts lines 258-307): modifier flags from
membership, encode each main key, concatenate; a chord without main keys
encodes to the empty string. -/
def getKeyCode (keys : List String) : String :=
  let hasCtrl := keys.contains "ctrl"
  let hasAlt := keys.contains "alt"
  let hasShift := keys.contains "shift"
  let mains := mainKeysOf keys
  if mains.isEmpty then ""
  else (mains.map (encodeKey hasCtrl hasAlt hasShift)).foldl (· ++ ·) ""

/-- Keycode table as the spec states it (13 for enter/return, 9 for tab,
127 for backspace, 27 for escape/esc); used to compare the claim against the
CSI_U_KEYCODES table of the source. -/
def csiKeycodeSpec (K : String) : Nat :=
  if K = "enter" ∨ K = "return" then 13
  else if K = "tab" then 9
  else if K = "backspace" then 127
  else 27

/-! ## Screen projector (Session.buildTextFromJson / Session.cleanupText) -/

/-- Style flag bit for bold.  The numeric values come from the external
ghostty-opentui library; the projector only tests bits, and no claim depends
on the concrete values, so representative distinct bits are used. -/
def StyleFlagsBOLD : Nat := 1

/-- Style flag bit for italic (see StyleFlagsBOLD). -/
def StyleFlagsITALIC : Nat := 2

/-- Style flag bit for underline (see StyleFlagsBOLD). -/
def StyleFlagsUNDERLINE : Nat := 4

/-- A styled span of a terminal line as delivered by the emulator. -/
structure Span where
  text : String
  width : Nat
  flags : Nat
  fg : String
  bg : String
deriving DecidableEq

/-- One line of the emulator grid: an ordered list of spans. -/
structure TermLine where
  spans : List Span
deriving DecidableEq

/-- The emulator grid snapshot (TerminalData from ghostty-opentui, as read by
the projector: only the lines/spans structure is consumed). -/
structure TerminalData where
  lines : List TermLine
deriving DecidableEq

/-- The style filter of TextOptions.only (session.ts TextOptions). -/
structure OnlyFilter where
  bold : Option Bool := none
  italic : Option Bool := none
  underline : Option Bool := none
  foreground : Option String := none
  background : Option String := none
deriving DecidableEq

/-- Whether a span passes every predicate present in the filter
(session.ts buildTextFromJson lines 336-354). -/
def spanMatches (only : OnlyFilter) (sp : Span) : Bool :=
  (match only.bold with
   | none => true
   | some b => (decide ((sp.flags &&& StyleFlagsBOLD) ≠ 0)) == b) &&
  (match only.italic with
   | none => true
   | some b => (decide ((sp.flags &&& StyleFlagsITALIC) ≠ 0)) == b) &&
  (match only.underline with
   | none => true
   | some b => (decide ((sp.flags &&& StyleFlagsUNDERLINE) ≠ 0)) == b) &&
  (match only.foreground with
   | none => true
   | some f => sp.fg == f) &&
  (match only.background with
   | none => true
   | some b => sp.bg == b)

/-- The text contribution of one span: its text when there is no filter or it
matches, otherwise span.width spaces (session.ts lines 356-363). -/
def renderSpan (only : Option OnlyFilter) (sp : Span) : String :=
  match only with
  | some o => if spanMatches o sp then sp.text else String.mk (List.replicate sp.width ' ')
  | none => sp.text

/-- One projected line: the concatenated span contributions
(session.ts buildTextFromJson inner loop). -/
def renderLine (only : Option OnlyFilter) (l : TermLine) : String :=
  (l.spans.map (renderSpan only)).foldl (· ++ ·) ""

/-- Whitespace class of JS regexes (the class matched by the trimming
regexes). -/
def jsSpace (c : Char) : Bool :=
  [' ', '\t', '\n', '\x0b', '\x0c', '\r',
   ' ', ' ', ' ', ' ', ' ', ' ', ' ',
   ' ', ' ', ' ', ' ', ' ', ' ',
   ' ', ' ', ' ', ' ', '　', '﻿'].contains c

/-- Right-trim of one line: l.replace of the trailing-whitespace regex with
the empty string (session.ts cleanupText line 374). -/
def rtrimLine (s : String) : String :=
  String.mk (s.data.reverse.dropWhile jsSpace).reverse

/-- The JS trim function (String.prototype.trim): strip whitespace from both
ends (used by the trailing-empty-line test in cleanupText). -/
def jsTrim (s : String) : String :=
  String.mk ((s.data.dropWhile jsSpace).reverse.dropWhile jsSpace).reverse

/-- The while loop of cleanupText (session.ts lines 381-384) translated on the
countdown index: returns lastNonEmpty + 1, the number of leading lines kept. -/
def keepLenAux (ls : List String) : Nat → Nat
  | 0 => 0
  | k + 1 => if jsTrim (ls.getD k "") = "" then keepLenAux ls k else k + 1

/-- The cleanup step (Session.cleanupText, session.ts lines 372-388): right-trim every line;
without trimEnd, prepend a newline and join; with trimEnd, additionally keep
only the lines up to the last one that is non-empty after JS trim. -/
def cleanupText (lines : List String) (trimEnd : Bool) : String :=
  let linesTrimmed := lines.map rtrimLine
  if !trimEnd then "\n" ++ String.intercalate "\n" linesTrimmed
  else
    "\n" ++ String.intercalate "\n"
      (linesTrimmed.take (keepLenAux linesTrimmed linesTrimmed.length))

/-- The projector (Session.buildTextFromJson, session.ts lines 327-370): project every grid
line through the optional style filter, then clean up. -/
def buildTextFromJson (data : TerminalData) (only : Option OnlyFilter)
    (trimEnd : Bool) : String :=
  cleanupText (data.lines.map (renderLine only)) trimEnd

/-! ## Session state and operations -/

/-- The Session fields relevant to lifecycle and I/O effects: the closed flag,
the first-data flag, whether the idleTimer handle was ever assigned (it is
never reset to undefined by a fire or a clearTimeout), the chunks fed to the
emulator and the strings written to the PTY. -/
structure SessionSt where
  closed : Bool
  hasReceivedData : Bool
  idleTimerSet : Bool
  fed : List String
  written : List String
deriving DecidableEq

/-- A freshly constructed session. -/
def initSt : SessionSt :=
  { closed := false, hasReceivedData := false, idleTimerSet := false,
    fed := [], written := [] }

/-- The close operation (Session.close, session.ts lines 572-577): set the closed flag (the PTY
kill and emulator destroy are external effects). -/
def closeOp (s : SessionSt) : SessionSt := { s with closed := true }

/-- The pty.onData handler (session.ts lines 181-200): a no-op once closed;
otherwise feed the emulator, record first data, (re)assign the idle timer. -/
def handleData (s : SessionSt) (d : String) : SessionSt :=
  if s.closed then s
  else { s with fed := s.fed ++ [d], hasReceivedData := true, idleTimerSet := true }

/-- The press operation (Session.press, session.ts lines 309-314): encode the chord; when the code
is non-empty write it to the PTY and await quiescence (the returned Bool).
The Except codomain records that the operation can in principle fail; the
source performs no validation and no closed-flag check, so no error is ever
produced here. -/
def pressOp (s : SessionSt) (keys : List String) : Except String (SessionSt × Bool) :=
  if getKeyCode keys != "" then
    .ok ({ s with written := s.written ++ [getKeyCode keys] }, true)
  else .ok (s, false)

/-- The type operation (Session.type, session.ts lines 247-253): write each character of the text
to the PTY (with pacing, not modelled), then await quiescence.  No closed-flag
check is performed. -/
def typeOp (s : SessionSt) (text : String) : Except String (SessionSt × Bool) :=
  .ok ({ s with written := s.written ++ text.data.map (fun c => String.mk [c]) }, true)

/-- The immediate branch of Session.text (session.ts lines 399-402): project
the current grid snapshot and return it, with no closed-flag check.  The grid
is passed explicitly since the emulator is external state. -/
def textImmediateOp (_s : SessionSt) (data : TerminalData) (only : Option OnlyFilter)
    (trimEnd : Bool) : Except String String :=
  .ok (buildTextFromJson data only trimEnd)

/-- Whether an Except value is a success. -/
def isOkE {ε α : Type} (e : Except ε α) : Bool :=
  match e with
  | .ok _ => true
  | .error _ => false

/-- Insertion into a lexicographically sorted list of strings. -/
def insortStr (x : String) : List String → List String
  | [] => [x]
  | y :: ys => if x ≤ y then x :: y :: ys else y :: insortStr x ys

/-- Insertion sort on strings (JS Array.prototype.sort with the default
comparator, on the distinct ASCII key names). -/
def sortStr (l : List String) : List String := l.foldr insortStr []

/-- The sorted valid key list, Array.from(VALID_KEYS).sort(), as used in the CLI
press error message. -/
def validKeysSorted : List String := sortStr VALID_KEYS

/-- The key validation of the CLI press command (cli.ts, goke version, lines
368-375): filter out invalid names; when any exist, fail with the message
naming them and listing the sorted valid set; otherwise proceed (none). -/
def cliPressCheck (keys : List String) : Option String :=
  if (keys.filter (fun k => !(isValidKey k))).length > 0 then
    some ("Invalid key(s): " ++ String.intercalate ", " (keys.filter (fun k => !(isValidKey k)))
      ++ "\nValid keys: " ++ String.intercalate ", " validKeysSorted)
  else none

/-! ## Pattern matcher (Session.click, string-literal patterns) -/

/-- Whether the first list occurs at the head of the second. -/
def strHasPre : List Char → List Char → Bool
  | [], _ => true
  | _ :: _, [] => false
  | p :: ps, h :: hs => (p == h) && strHasPre ps hs

/-- Non-overlapping leftmost match start positions, as produced by the g-flag
exec loop of Session.click (session.ts lines 499-508): after a match at i the
search resumes at i + pattern length.  Fuel-driven recursion; the JS loop does
not terminate on the empty pattern, so claims assume a non-empty pattern. -/
def matchPosAux (pat : List Char) : Nat → List Char → Nat → List Nat
  | 0, _, _ => []
  | _ + 1, [], _ => []
  | fuel + 1, c :: rest, i =>
    if strHasPre pat (c :: rest) then
      i :: matchPosAux pat fuel ((c :: rest).drop pat.length) (i + pat.length)
    else matchPosAux pat fuel rest (i + 1)

/-- Match start columns of a literal pattern on one line. -/
def lineMatchPositions (pat : String) (line : String) : List Nat :=
  matchPosAux pat.data (line.data.length + 1) line.data 0

/-- The match collection loop of Session.click (session.ts lines 492-508):
walk the lines top to bottom, recording (x, y) for every match. -/
def findMatchesAux (pat : String) : List String → Nat → List (Nat × Nat)
  | [], _ => []
  | line :: rest, y =>
    ((lineMatchPositions pat line).map (fun x => (x, y))) ++ findMatchesAux pat rest (y + 1)

/-- All matches of a literal pattern on the projected lines, in scan order. -/
def findMatches (lines : List String) (pat : String) : List (Nat × Nat) :=
  findMatchesAux pat lines 0

/-- Outcome of one polling iteration of Session.click. -/
inductive ClickOutcome where
  | noMatch
  | ambiguous (msg : String)
  | clicked (x y : Nat)
deriving DecidableEq

/-- The multiple-matches error message of Session.click (session.ts
lines 515-517). -/
def clickErrorMsg (pat : String) (n : Nat) : String :=
  "click(\"" ++ pat ++ "\") found " ++ Nat.repr n
    ++ " matches. Use \x7b first: true \x7d to click the first match, or use a more specific pattern."

/-- One polling iteration of Session.click (session.ts lines 510-522): no
matches means keep polling; more than one match without first is the
ambiguity error; otherwise click matches[0]. -/
def clickIteration (lines : List String) (pat : String) (first : Bool) : ClickOutcome :=
  match findMatches lines pat with
  | [] => .noMatch
  | m :: rest =>
    if (decide (rest.length + 1 > 1)) && !first then
      .ambiguous (clickErrorMsg pat (rest.length + 1))
    else .clicked m.1 m.2

/-! ## Idle tracker (Session.waitIdle / Session.waitForData), discrete-event
model.  A trace is the list of PTY chunk arrival times (milliseconds); a
waiter is armed at a given time with a timeout.  Ties between simultaneously
scheduled timers are avoided in all concrete instances. -/

/-- Result of a waiting primitive: resolution or rejection at a time. -/
inductive WaitResult where
  | ok (t : Nat)
  | err (t : Nat) (msg : String)
deriving DecidableEq

/-- The debounce interval after the last received byte (session.ts line 199). -/
def IDLE_DEBOUNCE : Nat := 60

/-- The fallback wait when the idle timer handle is unset (session.ts
line 223). -/
def INITIAL_IDLE_FALLBACK : Nat := 20

/-- Whether another chunk arrives within the debounce window after t,
cancelling the timer set at t. -/
def hasChunkLater (chunks : List Nat) (t : Nat) : Bool :=
  chunks.any (fun u => t < u && u < t + IDLE_DEBOUNCE)

/-- The times at which the debounce timer actually fires: one fire per chunk
that no later chunk cancels. -/
def fireTimes (chunks : List Nat) : List Nat :=
  (chunks.filter (fun t => !(hasChunkLater chunks t))).map (fun t => t + IDLE_DEBOUNCE)

/-- Minimum of a list of naturals, none when empty. -/
def minNat? (l : List Nat) : Option Nat :=
  l.foldl (fun acc t =>
    match acc with
    | none => some t
    | some m => some (Nat.min m t)) none

/-- The first debounce fire strictly after the arming time, if any. -/
def nextFireAfter (chunks : List Nat) (arm : Nat) : Option Nat :=
  minNat? ((fireTimes chunks).filter (fun f => arm < f))

/-- Whether any chunk has arrived at or before the given time (this is when
hasReceivedData becomes true and the idleTimer handle is first assigned). -/
def everReceivedBy (chunks : List Nat) (arm : Nat) : Bool :=
  chunks.any (fun t => t ≤ arm)

/-- Whether a debounce fire is still pending at the arming time: the last
chunk at or before arm has not yet reached its fire time. -/
def debounceScheduled (chunks : List Nat) (arm : Nat) : Bool :=
  chunks.any (fun t => t ≤ arm && arm < t + IDLE_DEBOUNCE
    && !(chunks.any (fun u => t < u && u ≤ arm)))

/-- The waitIdle operation (Session.waitIdle, session.ts lines 219-232) on a trace: when the idleTimer
handle has never been assigned (no chunk at or before arm — the handle is
never cleared back to undefined after a fire), resolve after
min(timeout, 20); otherwise push a resolver released at the next debounce
fire, bounded by the full timeout.  Both paths resolve; waitIdle never
rejects. -/
def waitIdleResult (chunks : List Nat) (arm timeout : Nat) : WaitResult :=
  if everReceivedBy chunks arm then
    match nextFireAfter chunks arm with
    | some f => .ok (Nat.min f (arm + timeout))
    | none => .ok (arm + timeout)
  else .ok (arm + Nat.min timeout INITIAL_IDLE_FALLBACK)

/-- The timeout rejection message of Session.waitForData (session.ts
line 210). -/
def waitForDataMsg (timeout : Nat) : String :=
  "waitForData timed out after " ++ Nat.repr timeout ++ "ms - no data received from PTY"

/-- The waitForData operation (Session.waitForData, session.ts lines 203-217) on a trace: an immediate
success when data has already arrived; otherwise resolve on the first chunk
if it beats the timeout, else reject with the timeout error. -/
def waitForDataResult (chunks : List Nat) (arm timeout : Nat) : WaitResult :=
  if everReceivedBy chunks arm then .ok arm
  else
    match minNat? (chunks.filter (fun t => arm < t)) with
    | some t => if t < arm + timeout then .ok t else .err (arm + timeout) (waitForDataMsg timeout)
    | none => .err (arm + timeout) (waitForDataMsg timeout)

/-! ## Theorems -/

/-- A chord with exactly one main key encodes to that key's encodeKey value
under the chord's modifier flags. -/
theorem getKeyCode_eq_encode (keys : List String) (k : String)
    (hm : mainKeysOf keys = [k]) :
    getKeyCode keys
      = encodeKey (keys.contains "ctrl") (keys.contains "alt") (keys.contains "shift") k := by
  unfold getKeyCode
  simp only [hm]
  simp

/-- With ctrl held, a single-character main key is encoded by the CTRL_CODES
lookup (raw char on a miss), whatever alt and shift are. -/
theorem encodeKey_ctrl_one (a s : Bool) (key : String) (h : key.length = 1) :
    encodeKey true a s key =
      (match CTRL_CODES.lookup (lowerStr key) with
       | some code => code
       | none => key) := by
  unfold encodeKey
  rw [if_pos]
  simp [h]

/-- The kept-line count of the cleanupText loop never exceeds the scanned
length. -/
theorem keepLenAux_le (ls : List String) (k : Nat) : keepLenAux ls k ≤ k := by
  induction k with
  | zero => simp [keepLenAux]
  | succ n ih =>
    unfold keepLenAux
    split
    · exact Nat.le_succ_of_le ih
    · exact Nat.le_refl _

/-- Scanning at most the first part of a list is unaffected by appending an
element. -/
theorem keepLenAux_concat (ls : List String) (x : String) (k : Nat) (hk : k ≤ ls.length) :
    keepLenAux (ls ++ [x]) k = keepLenAux ls k := by
  induction k with
  | zero => rfl
  | succ n ih =>
    unfold keepLenAux
    rw [List.getD_append _ _ _ _ (Nat.lt_of_succ_le hk)]
    rw [ih (Nat.le_of_succ_le hk)]

/-- Reading the appended element of a concatenation by its index. -/
theorem getD_concat_self (ls : List String) (x d : String) :
    (ls ++ [x]).getD ls.length d = x := by
  rw [List.getD_append_right _ _ _ _ (Nat.le_refl _)]
  simp

/-- Predicates that agree on the members of a list drop the same elements. -/
theorem dropWhile_congr_mem {α : Type} (p q : α → Bool) (l : List α)
    (h : ∀ x ∈ l, p x = q x) : l.dropWhile p = l.dropWhile q := by
  induction l with
  | nil => rfl
  | cons a t ih =>
    simp only [List.dropWhile_cons]
    rw [h a (by simp)]
    split
    · exact ih (fun x hx => h x (by simp [hx]))
    · rfl

/-- The countdown loop of cleanupText keeps exactly the lines before the
trailing block of lines that are blank after JS trim. -/
theorem keepLen_take_eq (ls : List String) :
    ls.take (keepLenAux ls ls.length)
      = (ls.reverse.dropWhile (fun l => jsTrim l == "")).reverse := by
  induction ls using List.reverseRecOn with
  | nil => rfl
  | append_singleton ls x ih =>
    have hlen : (ls ++ [x]).length = ls.length + 1 := by simp
    rw [hlen]
    unfold keepLenAux
    rw [getD_concat_self]
    by_cases hx : jsTrim x = ""
    · rw [if_pos hx, keepLenAux_concat ls x ls.length (Nat.le_refl _)]
      have hle : keepLenAux ls ls.length ≤ ls.length := keepLenAux_le ls ls.length
      rw [List.take_append_eq_append_take, Nat.sub_eq_zero_of_le hle]
      simp only [List.take_zero, List.append_nil]
      rw [ih]
      rw [List.reverse_append]
      simp only [List.reverse_cons, List.reverse_nil, List.nil_append, List.singleton_append]
      rw [List.dropWhile_cons]
      rw [show (jsTrim x == "") = true from by simp [hx]]
      simp
    · rw [if_neg hx]
      rw [List.take_of_length_le (by simp)]
      rw [List.reverse_append]
      simp only [List.reverse_cons, List.reverse_nil, List.nil_append, List.singleton_append]
      rw [List.dropWhile_cons]
      rw [show (jsTrim x == "") = false from by simp [hx]]
      simp

/-- Every element surviving a dropWhile satisfies the predicate exactly when
every element of the list does. -/
theorem forall_dropWhile_iff {α : Type} (p : α → Bool) (l : List α) :
    (∀ x ∈ l.dropWhile p, p x = true) ↔ (∀ x ∈ l, p x = true) := by
  constructor
  · intro h x hx
    have hsplit := List.takeWhile_append_dropWhile p l
    rcases List.mem_append.mp (by rw [hsplit]; exact hx) with h1 | h2
    · exact List.mem_takeWhile_imp h1
    · exact h x h2
  · intro h x hx
    exact h x ((List.dropWhile_sublist p).mem hx)

/-- The first element surviving a dropWhile falsifies the predicate. -/
theorem dropWhile_head_false {α : Type} (p : α → Bool) (l : List α) (a : α) (as : List α)
    (h : l.dropWhile p = a :: as) : p a = false := by
  induction l with
  | nil => simp at h
  | cons c t ih =>
    rw [List.dropWhile_cons] at h
    by_cases hc : p c = true
    · rw [if_pos hc] at h
      exact ih h
    · rw [if_neg hc] at h
      cases h
      simpa using hc

/-- A string JS-trims to empty exactly when all its characters are
whitespace. -/
theorem jsTrim_empty_iff (s : String) :
    (jsTrim s = "") ↔ (∀ c ∈ s.data, jsSpace c = true) := by
  unfold jsTrim
  rw [show ((String.mk ((s.data.dropWhile jsSpace).reverse.dropWhile jsSpace).reverse = "")
      ↔ (((s.data.dropWhile jsSpace).reverse.dropWhile jsSpace).reverse = [])) from
    by rw [String.ext_iff]]
  rw [List.reverse_eq_nil_iff, List.dropWhile_eq_nil_iff]
  constructor
  · intro h c hc
    exact (forall_dropWhile_iff jsSpace s.data).mp (fun x hx => h x (by simpa using hx)) c hc
  · intro h c hc
    exact h c ((List.dropWhile_sublist jsSpace).mem (by simpa using hc))

/-- A right-trimmed line JS-trims to empty exactly when it is already
empty. -/
theorem rtrim_blank_iff (s : String) :
    (jsTrim (rtrimLine s) = "") ↔ (rtrimLine s = "") := by
  constructor
  · intro h
    rw [jsTrim_empty_iff] at h
    unfold rtrimLine at h ⊢
    rw [String.ext_iff]
    show (s.data.reverse.dropWhile jsSpace).reverse = ("" : String).data
    cases hd : s.data.reverse.dropWhile jsSpace with
    | nil => simp [hd]
    | cons a as =>
      have hfalse : jsSpace a = false := dropWhile_head_false jsSpace s.data.reverse a as hd
      have hmem : a ∈ (s.data.reverse.dropWhile jsSpace).reverse := by simp [hd]
      have := h a (by simp [hd])
      rw [hfalse] at this
      cases this
  · intro h
    rw [h]
    rfl

/-- Length of a left fold of string concatenations. -/
theorem foldl_append_length (ss : List String) (acc : String) :
    (ss.foldl (· ++ ·) acc).length = acc.length + (ss.map String.length).sum := by
  induction ss generalizing acc with
  | nil => simp
  | cons hd tl ih =>
    simp only [List.foldl_cons, List.map_cons, List.sum_cons]
    rw [ih, String.length_append]
    omega

/-- Line-major strict order on match coordinates (x, y): smaller row first,
then smaller starting column. -/
def lineMajorLt (a b : Nat × Nat) : Prop := a.2 < b.2 ∨ (a.2 = b.2 ∧ a.1 < b.1)

/-- Every match position produced from scan position i is at least i. -/
theorem matchPosAux_ge (pat : List Char) :
    ∀ fuel hay i, ∀ x ∈ matchPosAux pat fuel hay i, i ≤ x := by
  intro fuel
  induction fuel with
  | zero => intro hay i x hx; simp [matchPosAux] at hx
  | succ n ih =>
    intro hay i x hx
    match hay with
    | [] => simp [matchPosAux] at hx
    | c :: rest =>
      simp only [matchPosAux] at hx
      by_cases hm : strHasPre pat (c :: rest) = true
      · rw [if_pos hm] at hx
        rcases List.mem_cons.mp hx with rfl | hx2
        · exact Nat.le_refl _
        · have := ih _ _ x hx2
          omega
      · rw [if_neg hm] at hx
        have := ih _ _ x hx
        omega

/-- Match positions on one line are strictly increasing. -/
theorem matchPosAux_pairwise (pat : List Char) (hpat : pat ≠ []) :
    ∀ fuel hay i, (matchPosAux pat fuel hay i).Pairwise (· < ·) := by
  intro fuel
  induction fuel with
  | zero => intro hay i; simp [matchPosAux]
  | succ n ih =>
    intro hay i
    match hay with
    | [] => simp [matchPosAux]
    | c :: rest =>
      simp only [matchPosAux]
      by_cases hm : strHasPre pat (c :: rest) = true
      · rw [if_pos hm]
        refine List.Pairwise.cons ?_ (ih _ _)
        intro x hx
        have hge := matchPosAux_ge pat n _ _ x hx
        have hlen : 1 ≤ pat.length := by
          cases pat with
          | nil => exact absurd rfl hpat
          | cons p ps => simp
        omega
      · rw [if_neg hm]
        exact ih _ _

/-- Matches collected from line y onward have row at least y. -/
theorem findMatchesAux_y_ge (pat : String) :
    ∀ ls y, ∀ m ∈ findMatchesAux pat ls y, y ≤ m.2 := by
  intro ls
  induction ls with
  | nil => intro y m hm; simp [findMatchesAux] at hm
  | cons line rest ih =>
    intro y m hm
    simp only [findMatchesAux] at hm
    rcases List.mem_append.mp hm with h1 | h2
    · rcases List.mem_map.mp h1 with ⟨x, hx, rfl⟩
      simp
    · have := ih (y + 1) m h2
      omega

/-- The match list of the click scan is strictly sorted in line-major
order. -/
theorem findMatchesAux_pairwise (pat : String) (hpat : pat ≠ "") :
    ∀ ls y, (findMatchesAux pat ls y).Pairwise lineMajorLt := by
  have hpd : pat.data ≠ [] := by
    intro h
    apply hpat
    apply String.ext
    simpa using h
  intro ls
  induction ls with
  | nil => intro y; simp [findMatchesAux]
  | cons line rest ih =>
    intro y
    simp only [findMatchesAux]
    rw [List.pairwise_append]
    refine ⟨?_, ih (y + 1), ?_⟩
    · rw [List.pairwise_map]
      have hp := matchPosAux_pairwise pat.data hpd (line.data.length + 1) line.data 0
      exact hp.imp (fun hab => Or.inr ⟨rfl, hab⟩)
    · intro a ha b hb
      rcases List.mem_map.mp ha with ⟨x, hx, rfl⟩
      have := findMatchesAux_y_ge pat rest (y + 1) b hb
      exact Or.inl (by simp; omega)

/-- C1 (amended): after close() the PTY data handler is a no-op (no bytes fed,
no state change), but the public operations press, type and immediate text do
not consult the closed flag and complete without a closed-session error. -/
theorem C1_after_close (s : SessionSt) (d : String) (keys : List String) (txt : String)
    (g : TerminalData) (only : Option OnlyFilter) (trimEnd : Bool) :
    handleData (closeOp s) d = closeOp s
    ∧ isOkE (pressOp (closeOp s) keys) = true
    ∧ isOkE (typeOp (closeOp s) txt) = true
    ∧ isOkE (textImmediateOp (closeOp s) g only trimEnd) = true := by
  refine ⟨?_, ?_, rfl, rfl⟩
  · unfold handleData closeOp
    simp
  · unfold pressOp
    split <;> rfl

/-- C1 counterexample: the claim says every operation invoked after close()
fails with a ClosedSession error; on the code, press and type after close
succeed and still write their bytes to the (killed) PTY. -/
theorem C1_counterexample :
    pressOp (closeOp initSt) ["enter"]
      = .ok ({ initSt with closed := true, written := ["\r"] }, true)
    ∧ typeOp (closeOp initSt) "hi"
      = .ok ({ initSt with closed := true, written := ["h", "i"] }, true) :=
  ⟨rfl, rfl⟩

/-- C2 (amended): the key validation lives in the CLI press command, which
filters the arguments through isValidKey and fails with a message naming the
offenders and listing the sorted valid set exactly when some element is
invalid; Session.press itself never validates and never fails. -/
theorem C2_validation_location :
    (∀ keys, cliPressCheck keys =
      (if keys.all (fun k => isValidKey k) then none
       else some ("Invalid key(s): "
          ++ String.intercalate ", " (keys.filter (fun k => !(isValidKey k)))
          ++ "\nValid keys: " ++ String.intercalate ", " validKeysSorted)))
    ∧ (∀ s keys, isOkE (pressOp s keys) = true) := by
  constructor
  · intro keys
    by_cases h : keys.all (fun k => isValidKey k) = true
    · have hnil : keys.filter (fun k => !(isValidKey k)) = [] := by
        rw [List.filter_eq_nil_iff]
        intro a ha
        have := List.all_eq_true.mp h a ha
        simp [this]
      simp [cliPressCheck, hnil, h]
    · obtain ⟨a, ha, hfa⟩ : ∃ a ∈ keys, isValidKey a = false := by
        rcases List.all_eq_false.mp (Bool.not_eq_true _ |>.mp h) with ⟨a, ha, hfa⟩
        exact ⟨a, ha, by simpa using hfa⟩
      have hmem : a ∈ keys.filter (fun k => !(isValidKey k)) :=
        List.mem_filter.mpr ⟨ha, by simp [hfa]⟩
      have hpos : 0 < (keys.filter (fun k => !(isValidKey k))).length :=
        List.length_pos.mpr (fun hnil => by simp [hnil] at hmem)
      unfold cliPressCheck
      rw [if_pos hpos, if_neg h]
  · intro s keys
    unfold pressOp
    split <;> rfl

/-- C2 counterexample: the claim says press(keys) validates every element
before encoding or writing; on the code, Session.press encodes the
unrecognized name "notakey" through the passthrough branch and writes it raw
to the PTY with no invalid-key error. -/
theorem C2_counterexample :
    pressOp initSt ["notakey"] = .ok ({ initSt with written := ["notakey"] }, true)
    ∧ isValidKey "notakey" = false :=
  ⟨rfl, by decide⟩

/-- C3 (amended): the min(timeout, INITIAL_IDLE_FALLBACK) fast path of
wait_idle applies exactly when no byte has ever arrived before arming (the
idleTimer handle was never assigned); when bytes arrived earlier and every
debounce fire is already past, wait_idle waits out the full timeout, because
the fired timer handle is never cleared back to undefined. -/
theorem C3_idle_fallback :
    (∀ chunks arm timeout, (∀ t ∈ chunks, arm < t) →
      waitIdleResult chunks arm timeout
        = WaitResult.ok (arm + Nat.min timeout INITIAL_IDLE_FALLBACK))
    ∧ (∀ chunks arm timeout, (∃ t ∈ chunks, t ≤ arm) →
      (∀ f ∈ fireTimes chunks, f ≤ arm) →
      waitIdleResult chunks arm timeout = WaitResult.ok (arm + timeout)) := by
  constructor
  · intro chunks arm timeout h
    have hrecv : everReceivedBy chunks arm = false := by
      unfold everReceivedBy
      rw [List.any_eq_false]
      intro t ht
      simp
      exact h t ht
    unfold waitIdleResult
    rw [hrecv]
    simp
  · intro chunks arm timeout hex hfires
    obtain ⟨t, ht, hle⟩ := hex
    have h1 : everReceivedBy chunks arm = true := by
      unfold everReceivedBy
      rw [List.any_eq_true]
      exact ⟨t, ht, by simpa using hle⟩
    have h2 : nextFireAfter chunks arm = none := by
      unfold nextFireAfter
      have hnil : (fireTimes chunks).filter (fun f => arm < f) = [] := by
        rw [List.filter_eq_nil_iff]
        intro f hf
        simp
        exact hfires f hf
      rw [hnil]
      rfl
    unfold waitIdleResult
    rw [h1, h2]
    simp

/-- C3 counterexample: with a single chunk at t=0 and wait_idle(500) armed at
t=100, no debounce is scheduled (the fire happened at t=60), yet the call
resolves at t=600 (full timeout) instead of t=120 = arm + min(500, 20) as the
claim states. -/
theorem C3_counterexample :
    debounceScheduled [0] 100 = false
    ∧ waitIdleResult [0] 100 500 = WaitResult.ok 600
    ∧ 100 + Nat.min 500 INITIAL_IDLE_FALLBACK = 120
    ∧ (600 : Nat) ≠ 120 := by decide

/-- C3 witness: the fallback branch on an empty trace, and the
full-timeout branch after a stale fire, at concrete inputs. -/
theorem C3_idle_fallback_witness :
    waitIdleResult [] 0 500 = WaitResult.ok 20
    ∧ waitIdleResult [0] 100 500 = WaitResult.ok 600 := by
  constructor
  · have h := C3_idle_fallback.1 [] 0 500 (by intro t ht; simp at ht)
    exact h.trans (by decide)
  · have h := C3_idle_fallback.2 [0] 100 500 ⟨0, by simp, by simp⟩
      (by intro f hf; simp [fireTimes, hasChunkLater, IDLE_DEBOUNCE] at hf; omega)
    exact h.trans (by decide)

/-- C4: for every CSI-u-capable key K (enter/return/tab/backspace/escape/esc)
and every chord whose only main key is K carrying at least one of ctrl, alt,
shift, the codec emits ESC [ keycode ; modifier u with keycode per the spec
table (13/9/127/27) and modifier = 1 + shift + 2*alt + 4*ctrl. -/
theorem C4_csiU (keys : List String) (K : String)
    (hK : K ∈ ["enter", "return", "tab", "backspace", "escape", "esc"])
    (hm : mainKeysOf keys = [K])
    (hmod : (keys.contains "ctrl" || keys.contains "alt" || keys.contains "shift") = true) :
    getKeyCode keys =
      "\x1b[" ++ Nat.repr (csiKeycodeSpec K) ++ ";"
        ++ Nat.repr (1 + (if keys.contains "shift" then 1 else 0)
            + (if keys.contains "alt" then 2 else 0)
            + (if keys.contains "ctrl" then 4 else 0)) ++ "u" := by
  rw [getKeyCode_eq_encode keys K hm]
  revert hmod
  fin_cases hK <;>
    (cases hc : keys.contains "ctrl" <;> cases ha : keys.contains "alt" <;>
     cases hs : keys.contains "shift" <;> decide)

/-- C4 witness: ctrl+enter encodes to ESC [ 13 ; 5 u. -/
theorem C4_csiU_witness :
    mainKeysOf ["ctrl", "enter"] = ["enter"]
    ∧ getKeyCode ["ctrl", "enter"] = "\x1b[13;5u" := by
  refine ⟨by decide, ?_⟩
  have h := C4_csiU ["ctrl", "enter"] "enter" (by decide) (by decide) (by decide)
  rw [h]
  decide

/-- C5: a chord containing ctrl whose only main key is a letter a-z encodes
to the single C0 control byte (letter - a + 1), with alt and shift ignored;
with a digit or punctuation main key instead, it encodes to the raw
character. -/
theorem C5_ctrl (keys : List String) (k : String)
    (hctrl : keys.contains "ctrl" = true)
    (hm : mainKeysOf keys = [k]) :
    (k ∈ LETTERS →
      getKeyCode keys = String.mk [Char.ofNat ((k.data.getD 0 'a').toNat - 'a'.toNat + 1)])
    ∧ ((k ∈ DIGITS ∨ k ∈ PUNCTUATION) → getKeyCode keys = k) := by
  constructor
  · intro hk
    rw [getKeyCode_eq_encode keys k hm, hctrl]
    fin_cases hk <;> rw [encodeKey_ctrl_one _ _ _ (by decide)] <;> decide
  · intro hk
    rw [getKeyCode_eq_encode keys k hm, hctrl]
    rcases hk with hk | hk <;> fin_cases hk <;>
      rw [encodeKey_ctrl_one _ _ _ (by decide)] <;> decide

/-- C5 witness: ctrl+c gives byte 3, ctrl+5 gives the raw "5". -/
theorem C5_ctrl_witness :
    getKeyCode ["ctrl", "c"] = "\x03" ∧ getKeyCode ["ctrl", "5"] = "5" := by
  constructor
  · have h := (C5_ctrl ["ctrl", "c"] "c" (by decide) (by decide)).1 (by decide)
    rw [h]
    decide
  · exact (C5_ctrl ["ctrl", "5"] "5" (by decide) (by decide)).2 (Or.inl (by decide))

/-- C6 (amended): under a style filter, the projected line before the
per-line right-trim keeps the length of the unfiltered line whenever every
span's width equals its text length; the subsequent right-trim can shorten
the filtered line more than the input (a filtered-out rightmost span becomes
trailing spaces), so the claimed equality after right-trimming fails. -/
theorem C6_layout (l : TermLine) (o : OnlyFilter)
    (h : ∀ sp ∈ l.spans, sp.width = sp.text.length) :
    (renderLine (some o) l).length = (renderLine none l).length := by
  unfold renderLine
  rw [foldl_append_length, foldl_append_length]
  congr 1
  rw [List.map_map, List.map_map]
  refine congrArg List.sum (List.map_congr_left ?_)
  intro sp hsp
  simp only [Function.comp_apply, renderSpan]
  cases hmatch : spanMatches o sp
  · simp only [Bool.false_eq_true, if_false]
    rw [show (String.mk (List.replicate sp.width ' ')).length = sp.width from by
      simp [String.length_mk]]
    exact h sp hsp
  · simp

/-- C6 counterexample: with a bold filter on a line "ab"(bold)+"cd"(plain)
and trim_end false, the projected line right-trims to "ab" (length 2) while
the input line right-trims to "abcd" (length 4), refuting the claimed length
equality. -/
theorem C6_counterexample :
    buildTextFromJson ⟨[⟨[⟨"ab", 2, 1, "", ""⟩, ⟨"cd", 2, 0, "", ""⟩]⟩]⟩
        (some { bold := some true }) false = "\nab"
    ∧ buildTextFromJson ⟨[⟨[⟨"ab", 2, 1, "", ""⟩, ⟨"cd", 2, 0, "", ""⟩]⟩]⟩ none false = "\nabcd"
    ∧ (rtrimLine (renderLine (some { bold := some true })
          ⟨[⟨"ab", 2, 1, "", ""⟩, ⟨"cd", 2, 0, "", ""⟩]⟩)).length
        ≠ (rtrimLine (renderLine none
          ⟨[⟨"ab", 2, 1, "", ""⟩, ⟨"cd", 2, 0, "", ""⟩]⟩)).length := by
  decide

/-- C6 witness: the pre-trim length equality at a concrete line whose span
widths equal their text lengths. -/
theorem C6_layout_witness :
    (renderLine (some { bold := some true })
        ⟨[⟨"ab", 2, 1, "", ""⟩, ⟨"cd", 2, 0, "", ""⟩]⟩).length
      = (renderLine none ⟨[⟨"ab", 2, 1, "", ""⟩, ⟨"cd", 2, 0, "", ""⟩]⟩).length :=
  C6_layout ⟨[⟨"ab", 2, 1, "", ""⟩, ⟨"cd", 2, 0, "", ""⟩]⟩ { bold := some true } (by decide)

/-- C7: for every grid and options, the projector output is exactly one
leading newline followed by the right-trimmed lines joined with newlines,
with the trailing block of empty lines additionally dropped when trim_end is
true. -/
theorem C7_outputShape (data : TerminalData) (only : Option OnlyFilter) (trimEnd : Bool) :
    buildTextFromJson data only trimEnd =
      "\n" ++ String.intercalate "\n"
        (if trimEnd then
          (((data.lines.map (renderLine only)).map rtrimLine).reverse.dropWhile
              (fun l => l == "")).reverse
         else (data.lines.map (renderLine only)).map rtrimLine) := by
  unfold buildTextFromJson cleanupText
  cases trimEnd with
  | false => simp
  | true =>
    simp only [Bool.not_true, Bool.false_eq_true, if_false, if_true]
    congr 2
    rw [keepLen_take_eq]
    congr 1
    apply dropWhile_congr_mem
    intro x hx
    have hx2 : x ∈ (data.lines.map (renderLine only)).map rtrimLine := by
      simpa using hx
    rcases List.mem_map.mp hx2 with ⟨s, _, rfl⟩
    by_cases hb : rtrimLine s = ""
    · simp [hb, (rtrim_blank_iff s).mpr hb, show jsTrim "" = "" from rfl]
    · have hnb : ¬ (jsTrim (rtrimLine s) = "") := fun hcon => hb ((rtrim_blank_iff s).mp hcon)
      simp [hb, hnb]

/-- C8: when a click polling iteration finds more than one match and first
is false, it fails with the multiple-matches error carrying the match count
and the advice; with first true it clicks the head of the match list, which
is minimal in line-major order (smallest row, then smallest starting
column). -/
theorem C8_click (lines : List String) (pat : String) (first : Bool)
    (hpat : pat ≠ "") :
    (1 < (findMatches lines pat).length → first = false →
        clickIteration lines pat first
          = ClickOutcome.ambiguous (clickErrorMsg pat (findMatches lines pat).length))
    ∧ (∀ x y tl, findMatches lines pat = (x, y) :: tl →
        clickIteration lines pat true = ClickOutcome.clicked x y
        ∧ ∀ m ∈ findMatches lines pat, y < m.2 ∨ (y = m.2 ∧ x ≤ m.1)) := by
  constructor
  · intro hlen hfirst
    subst hfirst
    cases hm : findMatches lines pat with
    | nil => rw [hm] at hlen; simp at hlen
    | cons m rest =>
      have hr : 0 < rest.length := by
        rw [hm] at hlen
        simp at hlen
        omega
      have hcond : (decide (rest.length + 1 > 1) && !false) = true := by
        simp
        omega
      unfold clickIteration
      rw [hm]
      dsimp only
      rw [if_pos hcond]
      simp
  · intro x y tl hm
    constructor
    · unfold clickIteration
      rw [hm]
      simp
    · intro m hmem
      have hpair : (findMatches lines pat).Pairwise lineMajorLt :=
        findMatchesAux_pairwise pat hpat lines 0
      rw [hm] at hpair hmem
      rcases List.mem_cons.mp hmem with rfl | hmem2
      · exact Or.inr ⟨rfl, Nat.le_refl _⟩
      · have hlt := (List.pairwise_cons.mp hpair).1 m hmem2
        rcases hlt with hcase | ⟨heq, hlt2⟩
        · exact Or.inl hcase
        · exact Or.inr ⟨heq, Nat.le_of_lt hlt2⟩

/-- C8 witness: on the line "aaa bbb aaa" the pattern "aaa" yields the
ambiguity error without first, and clicks (0, 0) with first. -/
theorem C8_click_witness :
    clickIteration ["aaa bbb aaa"] "aaa" false = ClickOutcome.ambiguous (clickErrorMsg "aaa" 2)
    ∧ clickIteration ["aaa bbb aaa"] "aaa" true = ClickOutcome.clicked 0 0 := by
  constructor
  · have h := (C8_click ["aaa bbb aaa"] "aaa" false (by decide)).1 (by decide) rfl
    exact h.trans (by decide)
  · exact ((C8_click ["aaa bbb aaa"] "aaa" true (by decide)).2 0 0 [(8, 0)] (by decide)).1

/-- C9: wait_idle always resolves successfully - every trace, arming time
and timeout produce an ok outcome, never a timeout rejection - while
wait_for_data does reject with its timeout error when no data ever
arrives. -/
theorem C9_waitOutcomes :
    (∀ chunks arm timeout, ∃ t, waitIdleResult chunks arm timeout = WaitResult.ok t)
    ∧ waitForDataResult [] 0 5000 = WaitResult.err 5000 (waitForDataMsg 5000) := by
  constructor
  · intro chunks arm timeout
    unfold waitIdleResult
    by_cases h : everReceivedBy chunks arm = true
    · rw [if_pos h]
      cases hn : nextFireAfter chunks arm with
      | some f => exact ⟨Nat.min f (arm + timeout), rfl⟩
      | none => exact ⟨arm + timeout, rfl⟩
    · rw [if_neg h]
      exact ⟨arm + Nat.min timeout INITIAL_IDLE_FALLBACK, rfl⟩
  · decide

/-- C10: a chord consisting solely of modifier keys encodes to the empty
string, and press on it performs no PTY write and does not await quiescence,
leaving the session state unchanged. -/
theorem C10_modifiersOnly (s : SessionSt) (keys : List String)
    (h : ∀ k ∈ keys, k ∈ MODIFIERS) :
    getKeyCode keys = "" ∧ pressOp s keys = .ok (s, false) := by
  have hm : mainKeysOf keys = [] := by
    unfold mainKeysOf
    rw [List.filter_eq_nil_iff]
    intro a ha
    have hmem := h a ha
    fin_cases hmem <;> decide
  have hg : getKeyCode keys = "" := by
    unfold getKeyCode
    simp [hm]
  refine ⟨hg, ?_⟩
  unfold pressOp
  simp [hg]

/-- C10 witness: pressing ctrl+shift alone writes nothing and skips the
quiescence wait. -/
theorem C10_modifiersOnly_witness :
    getKeyCode ["ctrl", "shift"] = "" ∧ pressOp initSt ["ctrl", "shift"] = .ok (initSt, false) :=
  C10_modifiersOnly initSt ["ctrl", "shift"] (by decide)

end Tuistory
